import Mathlib

/-!
Verification of the core numerical subsystems of a pairs-trading
statistical-arbitrage system: the signal state machine, the
cointegration pair scan, the return synthesizer and the performance
metrics calculator.

Modelling conventions (shallow embedding):
- Python floats are modelled as exact rationals (`ℚ`); a float NaN is
  modelled as `none` in `Option ℚ`.
- `numpy.sqrt` and the real power `(1+r) ** (1/nYears)` are irrational
  on rationals, so they are abstracted as function parameters
  (`sqrtFn`, `powFn`); every theorem depends on them only through
  properties that the real functions satisfy (e.g. `sqrtFn 0 = 0`).
- Division of floats by zero is modelled by `none` in the Option layer
  (in every situation exercised by the properties below the numerator
  is exactly zero there, where IEEE arithmetic also yields NaN), and by
  Lean's total rational division (`q / 0 = 0`) in the plain-`ℚ` layer.
- A Python `try/except` around a statistical test is modelled by giving
  the test the type `α → Option ℚ`, with `none` for a raised error.
-/

namespace Nifty50

/-! ## Signal engine (strategy.py) -/

/-- Three-state spread position, following the specification wording:
FLAT (0), LONG_SPREAD (+1), SHORT_SPREAD (−1). Specification-side type
used to state the refinement of `generate_signals`. -/
inductive SpreadState where
  | flat
  | longSpread
  | shortSpread
deriving DecidableEq, Repr

/-- Integer encoding of the three states used by the code. -/
def SpreadState.toInt : SpreadState → ℤ
  | .flat => 0
  | .longSpread => 1
  | .shortSpread => -1

/-- Specification-side definition, following the claim's wording (§4.3
transition rules): one transition of the machine on a defined z-score.
From FLAT: z > entry → SHORT_SPREAD, z < −entry → LONG_SPREAD, else FLAT.
From LONG_SPREAD: z > −exit or z > stopLoss → FLAT, else stay.
From SHORT_SPREAD: z < exit or z < −stopLoss → FLAT, else stay. -/
def specStep (entry exitT stopLoss : ℚ) : SpreadState → ℚ → SpreadState
  | .flat, z =>
      if z > entry then .shortSpread
      else if z < -entry then .longSpread
      else .flat
  | .longSpread, z =>
      if z > -exitT ∨ z > stopLoss then .flat else .longSpread
  | .shortSpread, z =>
      if z < exitT ∨ z < -stopLoss then .flat else .shortSpread

/-- Specification-side definition, following the claim's wording: fold
of the transition rules over the z-score sequence from a given state;
at an undefined (NaN) z-score the previous state is recorded and no
transition is evaluated. -/
def specFold (entry exitT stopLoss : ℚ) (st : SpreadState) :
    List (Option ℚ) → List SpreadState
  | [] => []
  | none :: rest => st :: specFold entry exitT stopLoss st rest
  | some z :: rest =>
      let st1 := specStep entry exitT stopLoss st z
      st1 :: specFold entry exitT stopLoss st1 rest

/-- The imperative loop of `PairsTrading.generate_signals`
(strategy.py lines 81–122), carrying the mutable `position` variable
explicitly. The series is pre-initialised with 0
(`pd.Series(index=..., data=0)`), so the unreachable final branch
(position outside {0, 1, −1}) records 0 and leaves `position` alone. -/
def genLoop (entry exitT stopLoss : ℚ) (position : ℤ) :
    List (Option ℚ) → List ℤ
  | [] => []
  | none :: rest => position :: genLoop entry exitT stopLoss position rest
  | some z :: rest =>
      if position = 0 then
        if z > entry then
          (-1) :: genLoop entry exitT stopLoss (-1) rest
        else if z < -entry then
          1 :: genLoop entry exitT stopLoss 1 rest
        else
          0 :: genLoop entry exitT stopLoss 0 rest
      else if position = 1 then
        if z > -exitT ∨ z > stopLoss then
          0 :: genLoop entry exitT stopLoss 0 rest
        else
          position :: genLoop entry exitT stopLoss position rest
      else if position = -1 then
        if z < exitT ∨ z < -stopLoss then
          0 :: genLoop entry exitT stopLoss 0 rest
        else
          position :: genLoop entry exitT stopLoss position rest
      else
        0 :: genLoop entry exitT stopLoss position rest

/-- `PairsTrading.generate_signals` (strategy.py lines 68–122):
the loop started with `position = 0`. -/
def generate_signals (entry exitT stopLoss : ℚ)
    (zscore : List (Option ℚ)) : List ℤ :=
  genLoop entry exitT stopLoss 0 zscore

lemma genLoop_eq_specFold (entry exitT stopLoss : ℚ) :
    ∀ (zs : List (Option ℚ)) (st : SpreadState),
      genLoop entry exitT stopLoss st.toInt zs =
        (specFold entry exitT stopLoss st zs).map SpreadState.toInt := by
  intro zs
  induction zs with
  | nil => intro st; rfl
  | cons oz rest ih =>
      intro st
      match oz with
      | none =>
          simp only [genLoop, specFold, List.map_cons]
          exact congrArg (List.cons _) (ih st)
      | some z =>
          cases st with
          | flat =>
              simp only [genLoop, specFold, SpreadState.toInt, specStep]
              by_cases h1 : z > entry
              · simp only [if_pos h1, List.map_cons]
                exact congrArg (List.cons _) (ih .shortSpread)
              · simp only [if_neg h1]
                by_cases h2 : z < -entry
                · simp only [if_pos h2, List.map_cons]
                  exact congrArg (List.cons _) (ih .longSpread)
                · simp only [if_neg h2, List.map_cons]
                  exact congrArg (List.cons _) (ih .flat)
          | longSpread =>
              have h10 : (1 : ℤ) ≠ 0 := by decide
              simp only [genLoop, specFold, SpreadState.toInt, specStep,
                if_neg h10, if_pos rfl]
              by_cases h : z > -exitT ∨ z > stopLoss
              · simp only [if_pos h, List.map_cons]
                exact congrArg (List.cons _) (ih .flat)
              · simp only [if_neg h, List.map_cons]
                exact congrArg (List.cons _) (ih .longSpread)
          | shortSpread =>
              have hm0 : (-1 : ℤ) ≠ 0 := by decide
              have hm1 : (-1 : ℤ) ≠ 1 := by decide
              simp only [genLoop, specFold, SpreadState.toInt, specStep,
                if_neg hm0, if_neg hm1, if_pos rfl]
              by_cases h : z < exitT ∨ z < -stopLoss
              · simp only [if_pos h, List.map_cons]
                exact congrArg (List.cons _) (ih .flat)
              · simp only [if_neg h, List.map_cons]
                exact congrArg (List.cons _) (ih .shortSpread)

/-- C1: `generate_signals` is exactly the fold of the literal
three-state transition rules starting from FLAT, where an undefined
z-score records the previous state with no transition evaluated; and on
the concrete path [0, 2.5, 1.0, 0.3, −0.1] with entry 2.0, exit 0.5,
stop-loss 4.0 the positions are [0, −1, −1, 0, 0]. -/
theorem generate_signals_is_spec_fold :
    (∀ (entry exitT stopLoss : ℚ) (zscore : List (Option ℚ)),
        generate_signals entry exitT stopLoss zscore =
          (specFold entry exitT stopLoss .flat zscore).map SpreadState.toInt)
    ∧ generate_signals 2 (1/2) 4
        [some 0, some (5/2), some 1, some (3/10), some (-(1/10))] =
        [0, -1, -1, 0, 0] := by
  constructor
  · intro entry exitT stopLoss zscore
    exact genLoop_eq_specFold entry exitT stopLoss zscore .flat
  · norm_num [generate_signals, genLoop]

lemma genLoop_stop_irrelevant (entry exitT s₁ s₂ : ℚ)
    (hx : 0 < exitT) (h₁ : 0 < s₁) (h₂ : 0 < s₂) :
    ∀ (zs : List (Option ℚ)) (p : ℤ),
      genLoop entry exitT s₁ p zs = genLoop entry exitT s₂ p zs := by
  intro zs
  induction zs with
  | nil => intro p; rfl
  | cons oz rest ih =>
      intro p
      match oz with
      | none => simp only [genLoop]; exact congrArg (List.cons _) (ih p)
      | some z =>
          simp only [genLoop]
          by_cases hp0 : p = 0
          · simp only [if_pos hp0]
            by_cases hz1 : z > entry
            · simp only [if_pos hz1]; exact congrArg (List.cons _) (ih (-1))
            · simp only [if_neg hz1]
              by_cases hz2 : z < -entry
              · simp only [if_pos hz2]; exact congrArg (List.cons _) (ih 1)
              · simp only [if_neg hz2]; exact congrArg (List.cons _) (ih 0)
          · simp only [if_neg hp0]
            by_cases hp1 : p = 1
            · simp only [if_pos hp1]
              have hiff : (z > -exitT ∨ z > s₁) ↔ (z > -exitT ∨ z > s₂) := by
                constructor
                · rintro (h | h)
                  · exact Or.inl h
                  · exact Or.inl (by linarith)
                · rintro (h | h)
                  · exact Or.inl h
                  · exact Or.inl (by linarith)
              by_cases hc : z > -exitT ∨ z > s₁
              · simp only [if_pos hc, if_pos (hiff.mp hc)]; exact congrArg (List.cons _) (ih 0)
              · simp only [if_neg hc, if_neg (fun hc2 => hc (hiff.mpr hc2))]
                exact congrArg (List.cons _) (ih p)
            · simp only [if_neg hp1]
              by_cases hpm : p = -1
              · simp only [if_pos hpm]
                have hiff : (z < exitT ∨ z < -s₁) ↔ (z < exitT ∨ z < -s₂) := by
                  constructor
                  · rintro (h | h)
                    · exact Or.inl h
                    · exact Or.inl (by linarith)
                  · rintro (h | h)
                    · exact Or.inl h
                    · exact Or.inl (by linarith)
                by_cases hc : z < exitT ∨ z < -s₁
                · simp only [if_pos hc, if_pos (hiff.mp hc)]; exact congrArg (List.cons _) (ih 0)
                · simp only [if_neg hc, if_neg (fun hc2 => hc (hiff.mpr hc2))]
                  exact congrArg (List.cons _) (ih p)
              · simp only [if_neg hpm]; exact congrArg (List.cons _) (ih p)

/-- C10: whenever the exit threshold and both stop-loss values are
strictly positive, `generate_signals` does not depend on the stop-loss:
from LONG_SPREAD, z > stopLoss already implies z > −exitThreshold, and
from SHORT_SPREAD, z < −stopLoss already implies z < exitThreshold, so
the stop-loss disjuncts never decide a transition. -/
theorem generate_signals_stop_loss_irrelevant
    (entry exitT s₁ s₂ : ℚ) (zscore : List (Option ℚ))
    (hx : 0 < exitT) (h₁ : 0 < s₁) (h₂ : 0 < s₂) :
    generate_signals entry exitT s₁ zscore =
      generate_signals entry exitT s₂ zscore :=
  genLoop_stop_irrelevant entry exitT s₁ s₂ hx h₁ h₂ zscore 0

/-- Witness for C10 at entry 2, exit 1/2, stop-losses 4 and 100. -/
theorem generate_signals_stop_loss_irrelevant_witness :
    (0 : ℚ) < 1/2 ∧ (0 : ℚ) < 4 ∧ (0 : ℚ) < 100 ∧
    generate_signals 2 (1/2) 4 [some 3, some 1, some 0] =
      generate_signals 2 (1/2) 100 [some 3, some 1, some 0] :=
  ⟨by norm_num, by norm_num, by norm_num,
    generate_signals_stop_loss_irrelevant 2 (1/2) 4 100
      [some 3, some 1, some 0] (by norm_num) (by norm_num) (by norm_num)⟩

/-! ## Cointegration pair scan (cointegration.py) -/

/-- The body of the pair loop in
`CointegrationAnalyzer.test_cointegration` (cointegration.py lines
51–60): for each enumerated pair, run the Engle–Granger test — an
external statistical routine abstracted as `test : P → Option ℚ`, with
`none` when the call raises and the `except` clause silently skips the
pair — and keep the pair iff its p-value is strictly below the
significance level. -/
def scanPairs {P : Type} (significance_level : ℚ) (test : P → Option ℚ)
    (pairs : List P) : List (P × ℚ) :=
  pairs.filterMap fun pr =>
    (test pr).bind fun p =>
      if p < significance_level then some (pr, p) else none

/-- `CointegrationAnalyzer.test_cointegration` (cointegration.py lines
28–69): scan all pairs, then `cointegrated.sort(key=lambda x: x[2])` —
Python's list sort is stable and ascending on the key, modelled by the
stable `List.mergeSort` on the p-value component. -/
def test_cointegration {P : Type} (significance_level : ℚ)
    (test : P → Option ℚ) (pairs : List P) : List (P × ℚ) :=
  (scanPairs significance_level test pairs).mergeSort
    (fun a b => decide (a.2 ≤ b.2))

lemma mem_scanPairs {P : Type} (significance_level : ℚ)
    (test : P → Option ℚ) (pairs : List P) (pr : P) (p : ℚ) :
    (pr, p) ∈ scanPairs significance_level test pairs ↔
      pr ∈ pairs ∧ test pr = some p ∧ p < significance_level := by
  simp only [scanPairs, List.mem_filterMap]
  constructor
  · rintro ⟨a, ha, hfa⟩
    rw [Option.bind_eq_some] at hfa
    obtain ⟨q, hta, hif⟩ := hfa
    by_cases hq : q < significance_level
    · rw [if_pos hq] at hif
      have h1 : a = pr := congrArg Prod.fst (Option.some.inj hif)
      have h2 : q = p := congrArg Prod.snd (Option.some.inj hif)
      subst h1; subst h2
      exact ⟨ha, hta, hq⟩
    · rw [if_neg hq] at hif; exact absurd hif (by simp)
  · rintro ⟨hpr, hta, hlt⟩
    refine ⟨pr, hpr, ?_⟩
    rw [Option.bind_eq_some]
    exact ⟨p, hta, if_pos hlt⟩

lemma pvalLE_trans {P : Type} :
    ∀ (a b c : P × ℚ), (fun a b : P × ℚ => decide (a.2 ≤ b.2)) a b →
      (fun a b : P × ℚ => decide (a.2 ≤ b.2)) b c →
      (fun a b : P × ℚ => decide (a.2 ≤ b.2)) a c := by
  intro a b c hab hbc
  simp only [decide_eq_true_eq] at hab hbc ⊢
  exact le_trans hab hbc

lemma pvalLE_total {P : Type} :
    ∀ (a b : P × ℚ), ((fun a b : P × ℚ => decide (a.2 ≤ b.2)) a b ||
      (fun a b : P × ℚ => decide (a.2 ≤ b.2)) b a) := by
  intro a b
  rcases le_total a.2 b.2 with h | h <;> simp [h]

/-- C2: `test_cointegration` returns exactly the pairs whose p-value is
strictly below the significance level (a pair whose test raises is
silently skipped and the scan does not abort, modelled by `test`
returning `none`), as a permutation of the scanned list; the output is
non-decreasing in p-value; and ties keep the original enumeration order
(for every p-value the sub-list at that p-value is unchanged). -/
theorem test_cointegration_spec {P : Type} (significance_level : ℚ)
    (test : P → Option ℚ) (pairs : List P) :
    (∀ pr p, (pr, p) ∈ test_cointegration significance_level test pairs ↔
        pr ∈ pairs ∧ test pr = some p ∧ p < significance_level)
    ∧ (test_cointegration significance_level test pairs).Pairwise
        (fun a b => a.2 ≤ b.2)
    ∧ (test_cointegration significance_level test pairs).Perm
        (scanPairs significance_level test pairs)
    ∧ ∀ v : ℚ,
        (test_cointegration significance_level test pairs).filter
          (fun a => decide (a.2 = v)) =
        (scanPairs significance_level test pairs).filter
          (fun a => decide (a.2 = v)) := by
  have hperm : (test_cointegration significance_level test pairs).Perm
      (scanPairs significance_level test pairs) :=
    List.mergeSort_perm _ _
  refine ⟨?_, ?_, hperm, ?_⟩
  · intro pr p
    rw [hperm.mem_iff]
    exact mem_scanPairs significance_level test pairs pr p
  · have h := @List.sorted_mergeSort (P × ℚ)
      (fun a b : P × ℚ => decide (a.2 ≤ b.2))
      pvalLE_trans pvalLE_total (scanPairs significance_level test pairs)
    exact h.imp fun {a b} hab => by simpa using hab
  · intro v
    set l := scanPairs significance_level test pairs with hl
    set q : P × ℚ → Bool := fun a => decide (a.2 = v) with hq
    have hpw : (l.filter q).Pairwise
        (fun a b : P × ℚ => decide (a.2 ≤ b.2)) := by
      apply List.pairwise_of_forall_mem_list
      intro a ha b hb
      have ha2 : a.2 = v := by
        have := List.of_mem_filter ha
        simpa [hq] using this
      have hb2 : b.2 = v := by
        have := List.of_mem_filter hb
        simpa [hq] using this
      simp [ha2, hb2]
    have hsub : List.Sublist (l.filter q)
        (l.mergeSort (fun a b => decide (a.2 ≤ b.2))) :=
      List.sublist_mergeSort pvalLE_trans pvalLE_total hpw (List.filter_sublist l)
    have hsub2 : List.Sublist ((l.filter q).filter q)
        ((l.mergeSort (fun a b => decide (a.2 ≤ b.2))).filter q) :=
      hsub.filter q
    have hidem : (l.filter q).filter q = l.filter q := by
      simp [List.filter_filter]
    rw [hidem] at hsub2
    have hlen : ((l.mergeSort (fun a b => decide (a.2 ≤ b.2))).filter q).length
        = (l.filter q).length :=
      (hperm.filter q).length_eq
    exact (hsub2.eq_of_length hlen.symm).symm

/-! ## Hedge ratio and pair analysis (cointegration.py) -/

/-- Arithmetic mean of a list, `sum / len`. Rational division is total,
so the empty list gets mean 0; no guarded use below relies on that. -/
def mean (l : List ℚ) : ℚ := l.sum / l.length

/-- Slope returned by `scipy.stats.linregress(x, y)`: the ratio of the
mean centred cross-moment of x and y to the mean centred second moment
of x (the covariance-over-variance form with matching denominators). -/
def linregress_slope (x y : List ℚ) : ℚ :=
  mean (List.zipWith (fun a b => (a - mean x) * (b - mean y)) x y) /
    mean (x.map fun a => (a - mean x) ^ 2)

/-- `CointegrationAnalyzer.calculate_hedge_ratio` (cointegration.py
lines 71–96): `y = prices[stock1]`, `x = prices[stock2]`,
`linregress(x, y)` — stock2 is the regressor, stock1 the response. -/
def calculate_hedge_ratio (pricesStock1 pricesStock2 : List ℚ) : ℚ :=
  linregress_slope pricesStock2 pricesStock1

/-- `CointegrationAnalyzer.calculate_spread` (cointegration.py lines
98–122) with an explicit hedge ratio:
spread = price(stock1) − hedgeRatio × price(stock2). -/
def calculate_spread (pricesStock1 pricesStock2 : List ℚ)
    (hedge_ratio : ℚ) : List ℚ :=
  List.zipWith (fun a b => a - hedge_ratio * b) pricesStock1 pricesStock2

/-- Sample variance (denominator n − 1), the radicand of the pandas
sample standard deviation. -/
def sampleVar (l : List ℚ) : ℚ :=
  (l.map fun a => (a - mean l) ^ 2).sum / ((l.length : ℚ) - 1)

/-- Result fields of `CointegrationAnalyzer.analyze_pair` used by the
claims. The correlation and the ADF statistic / critical values are
further outputs of external statistical calls and are not modelled. -/
structure PairAnalysis where
  hedge_ratio : ℚ
  spread_mean : ℚ
  spread_std : ℚ
  is_stationary : Bool
  adf_pvalue : ℚ

/-- `CointegrationAnalyzer.analyze_pair` (cointegration.py lines
154–196): hedge ratio by OLS, spread, spread moments, and the
stationarity decision `adf p-value < significance_level`; the external
`adfuller` routine is abstracted as `adf`, the square root inside the
standard deviation as `sqrtFn`. -/
def analyze_pair (adf : List ℚ → ℚ) (sqrtFn : ℚ → ℚ)
    (significance_level : ℚ)
    (pricesStock1 pricesStock2 : List ℚ) : PairAnalysis :=
  { hedge_ratio := calculate_hedge_ratio pricesStock1 pricesStock2
    spread_mean := mean (calculate_spread pricesStock1 pricesStock2
      (calculate_hedge_ratio pricesStock1 pricesStock2))
    spread_std := sqrtFn (sampleVar (calculate_spread pricesStock1
      pricesStock2 (calculate_hedge_ratio pricesStock1 pricesStock2)))
    is_stationary := decide (adf (calculate_spread pricesStock1
      pricesStock2 (calculate_hedge_ratio pricesStock1 pricesStock2)) <
      significance_level)
    adf_pvalue := adf (calculate_spread pricesStock1 pricesStock2
      (calculate_hedge_ratio pricesStock1 pricesStock2)) }

/-- Specification-side definition, following the claim's wording:
sample covariance of the two aligned price series (denominator n − 1). -/
def covSpec (a b : List ℚ) : ℚ :=
  (List.zipWith (fun x y => (x - mean a) * (y - mean b)) a b).sum /
    ((a.length : ℚ) - 1)

/-- Specification-side definition, following the claim's wording:
sample variance of a price series (denominator n − 1). -/
def varSpec (b : List ℚ) : ℚ :=
  (b.map fun y => (y - mean b) ^ 2).sum / ((b.length : ℚ) - 1)

lemma div_div_same_cancel (S T c : ℚ) (hc : c ≠ 0) :
    S / c / (T / c) = S / T := by
  by_cases hT : T = 0
  · simp [hT]
  · field_simp

/-- C7: the hedge ratio reported by `analyze_pair` is the OLS slope of
stock1 regressed on stock2, i.e. cov(A, B) / var(B) — stock2 enters as
the regressor and stock1 as the response. -/
theorem analyze_pair_hedge_ratio_ols
    (adf : List ℚ → ℚ) (sqrtFn : ℚ → ℚ) (significance_level : ℚ)
    (pA pB : List ℚ) (hlen : pA.length = pB.length) :
    (analyze_pair adf sqrtFn significance_level pA pB).hedge_ratio =
      covSpec pA pB / varSpec pB := by
  have hfun : (fun (a : ℚ) (b : ℚ) => (b - mean pB) * (a - mean pA)) =
      (fun (x : ℚ) (y : ℚ) => (x - mean pA) * (y - mean pB)) := by
    funext x y
    ring
  have hzip : List.zipWith (fun a b => (a - mean pB) * (b - mean pA)) pB pA =
      List.zipWith (fun x y => (x - mean pA) * (y - mean pB)) pA pB := by
    rw [List.zipWith_comm, hfun]
  have hratio : (analyze_pair adf sqrtFn significance_level pA pB).hedge_ratio
      = (List.zipWith (fun x y => (x - mean pA) * (y - mean pB)) pA pB).sum /
          (pB.length : ℚ) /
        ((pB.map fun y => (y - mean pB) ^ 2).sum / (pB.length : ℚ)) := by
    show calculate_hedge_ratio pA pB = _
    unfold calculate_hedge_ratio linregress_slope
    rw [hzip]
    unfold mean
    rw [List.length_zipWith, hlen, Nat.min_self, List.length_map]
  rcases Nat.eq_zero_or_pos pB.length with h0 | hpos
  · have hB : pB = [] := List.length_eq_zero.mp h0
    have hA : pA = [] := List.length_eq_zero.mp (hlen.trans h0)
    subst hB; subst hA
    simp [analyze_pair, calculate_hedge_ratio, linregress_slope, covSpec,
      varSpec, mean]
  · have hn : ((pB.length : ℚ)) ≠ 0 := by
      exact_mod_cast Nat.pos_iff_ne_zero.mp hpos
    rw [hratio, div_div_same_cancel _ _ _ hn]
    by_cases h1 : pB.length = 1
    · obtain ⟨b, hb⟩ := List.length_eq_one.mp h1
      have hT0 : (pB.map fun y => (y - mean pB) ^ 2).sum = 0 := by
        subst hb
        simp [mean]
      rw [hT0]
      unfold covSpec varSpec
      rw [hT0, hlen, h1]
      norm_num
    · have hn1 : ((pB.length : ℚ) - 1) ≠ 0 := by
        have h2 : 2 ≤ pB.length := by omega
        have : (2 : ℚ) ≤ (pB.length : ℚ) := by exact_mod_cast h2
        linarith
      unfold covSpec varSpec
      rw [hlen, div_div_same_cancel _ _ _ hn1]

/-- Witness for C7 on equal-length concrete series: prices A = [2, 4, 6]
against B = [1, 2, 3] give hedge ratio 2 = cov/var. -/
theorem analyze_pair_hedge_ratio_ols_witness :
    ([(2 : ℚ), 4, 6] : List ℚ).length = ([(1 : ℚ), 2, 3] : List ℚ).length ∧
    (analyze_pair (fun _ => 0) (fun q => q) (1/20)
        [(2 : ℚ), 4, 6] [(1 : ℚ), 2, 3]).hedge_ratio =
      covSpec [(2 : ℚ), 4, 6] [(1 : ℚ), 2, 3] /
        varSpec [(1 : ℚ), 2, 3] :=
  ⟨rfl, analyze_pair_hedge_ratio_ols (fun _ => 0) (fun q => q) (1/20)
    [(2 : ℚ), 4, 6] [(1 : ℚ), 2, 3] rfl⟩

/-! ## Rolling z-score (strategy.py) -/

/-- NaN-propagating subtraction on optional floats. -/
def osub : Option ℚ → Option ℚ → Option ℚ
  | some a, some b => some (a - b)
  | _, _ => none

/-- NaN-propagating multiplication on optional floats. -/
def omul : Option ℚ → Option ℚ → Option ℚ
  | some a, some b => some (a * b)
  | _, _ => none

/-- NaN-propagating addition on optional floats. -/
def oadd : Option ℚ → Option ℚ → Option ℚ
  | some a, some b => some (a + b)
  | _, _ => none

/-- NaN-propagating division on optional floats; a zero divisor yields
an undefined value (in every situation exercised below the numerator is
exactly zero there, where IEEE division 0/0 also yields NaN). -/
def odiv : Option ℚ → Option ℚ → Option ℚ
  | some a, some b => if b = 0 then none else some (a / b)
  | _, _ => none

/-- Trailing window of length `w` ending at index `t`. -/
def windowAt (w t : ℕ) (l : List ℚ) : List ℚ :=
  (l.take (t + 1)).drop (t + 1 - w)

/-- `spread.rolling(window=w).mean()`: undefined until the window is
full, then the mean of the trailing `w` observations. -/
def rollingMean (w : ℕ) (l : List ℚ) : List (Option ℚ) :=
  (List.range l.length).map fun t =>
    if t + 1 < w then none else some (mean (windowAt w t l))

/-- `spread.rolling(window=w).std()` — sample standard deviation of the
trailing window (denominator w − 1): undefined until the window is full
and for window length 1 (0/0 variance in floats); `sqrtFn` abstracts
the square root. -/
def rollingStd (sqrtFn : ℚ → ℚ) (w : ℕ) (l : List ℚ) : List (Option ℚ) :=
  (List.range l.length).map fun t =>
    if t + 1 < w then none
    else if w = 1 then none
    else some (sqrtFn (((windowAt w t l).map
      fun a => (a - mean (windowAt w t l)) ^ 2).sum / ((w : ℚ) - 1)))

/-- `PairsTrading.calculate_zscore` (strategy.py lines 43–66):
zscore = (spread − rollingMean) / rollingStd, elementwise with NaN
propagation. -/
def calculate_zscore (sqrtFn : ℚ → ℚ) (lookback : ℕ)
    (spread : List ℚ) : List (Option ℚ) :=
  List.zipWith odiv
    (List.zipWith osub (spread.map some) (rollingMean lookback spread))
    (rollingStd sqrtFn lookback spread)

lemma mean_const (l : List ℚ) (c : ℚ) (hne : l ≠ []) (h : ∀ x ∈ l, x = c) :
    mean l = c := by
  have hrep := List.eq_replicate_of_mem h
  have hn : ((l.length : ℚ)) ≠ 0 := by
    exact_mod_cast Nat.pos_iff_ne_zero.mp (List.length_pos.mpr hne)
  rw [mean, hrep, List.sum_replicate, List.length_replicate, nsmul_eq_mul]
  field_simp

lemma windowAt_mem (w t : ℕ) (l : List ℚ) :
    ∀ x ∈ windowAt w t l, x ∈ l := by
  intro x hx
  exact List.mem_of_mem_take (List.mem_of_mem_drop hx)

lemma windowAt_length (w t : ℕ) (l : List ℚ) (ht : t < l.length)
    (hw : w ≤ t + 1) : (windowAt w t l).length = w := by
  rw [windowAt, List.length_drop, List.length_take]
  omega

lemma rollingMean_getElem (w : ℕ) (l : List ℚ) (t : ℕ) (ht : t < l.length) :
    (rollingMean w l)[t]? =
      some (if t + 1 < w then none else some (mean (windowAt w t l))) := by
  rw [rollingMean, List.getElem?_map, List.getElem?_range ht]
  rfl

lemma rollingStd_getElem (sqrtFn : ℚ → ℚ) (w : ℕ) (l : List ℚ) (t : ℕ)
    (ht : t < l.length) :
    (rollingStd sqrtFn w l)[t]? =
      some (if t + 1 < w then none
        else if w = 1 then none
        else some (sqrtFn (((windowAt w t l).map
          fun a => (a - mean (windowAt w t l)) ^ 2).sum / ((w : ℚ) - 1)))) := by
  rw [rollingStd, List.getElem?_map, List.getElem?_range ht]
  rfl

lemma windowAt_var_zero (w t : ℕ) (l : List ℚ) (c : ℚ)
    (ht : t < l.length) (hw1 : 1 ≤ w) (hw : w ≤ t + 1)
    (hconst : ∀ x ∈ l, x = c) :
    mean (windowAt w t l) = c ∧
    ((windowAt w t l).map
      fun a => (a - mean (windowAt w t l)) ^ 2).sum = 0 := by
  have hlen := windowAt_length w t l ht hw
  have hne : windowAt w t l ≠ [] := by
    apply List.ne_nil_of_length_pos
    omega
  have hcw : ∀ x ∈ windowAt w t l, x = c :=
    fun x hx => hconst x (windowAt_mem w t l x hx)
  have hmean : mean (windowAt w t l) = c := mean_const _ c hne hcw
  refine ⟨hmean, List.sum_eq_zero ?_⟩
  intro q hq
  rw [List.mem_map] at hq
  obtain ⟨a, ha, hqa⟩ := hq
  rw [← hqa, hcw a ha, hmean]
  ring

/-- C9: on a constant spread every z-score entry is undefined (NaN);
the rolling standard deviation is 0 wherever a window of length at
least 2 is full, and the division (spread − mean)/std is 0/0 there,
yielding an undefined value rather than an error (the embedding is a
total function). -/
theorem calculate_zscore_constant_spread
    (sqrtFn : ℚ → ℚ) (w : ℕ) (spread : List ℚ) (c : ℚ)
    (hw : 1 ≤ w) (hconst : ∀ x ∈ spread, x = c) (hsqrt : sqrtFn 0 = 0) :
    (∀ oz ∈ calculate_zscore sqrtFn w spread, oz = none)
    ∧ (∀ t, t < spread.length → w ≤ t + 1 → 2 ≤ w →
        (rollingStd sqrtFn w spread).getD t none = some 0) := by
  constructor
  · intro oz hoz
    rw [List.mem_iff_getElem?] at hoz
    obtain ⟨t, ht⟩ := hoz
    have htlen : t < spread.length := by
      by_contra hge
      push_neg at hge
      have h1 : spread[t]? = none := List.getElem?_eq_none (by omega)
      rw [calculate_zscore, List.getElem?_zipWith, List.getElem?_zipWith,
        List.getElem?_map, h1] at ht
      simp at ht
    have hsp : spread[t]? = some spread[t] := List.getElem?_eq_getElem htlen
    have hc : spread[t] = c := hconst _ (List.getElem_mem htlen)
    rw [calculate_zscore, List.getElem?_zipWith, List.getElem?_zipWith,
      List.getElem?_map, hsp, rollingMean_getElem w spread t htlen,
      rollingStd_getElem sqrtFn w spread t htlen] at ht
    by_cases hfull : t + 1 < w
    · rw [if_pos hfull, if_pos hfull] at ht
      injection ht with ht
      rw [← ht]
      rfl
    · push_neg at hfull
      obtain ⟨hmean, hvar⟩ :=
        windowAt_var_zero w t spread c htlen hw hfull hconst
      rw [if_neg (by omega), if_neg (by omega)] at ht
      by_cases hw1 : w = 1
      · rw [if_pos hw1] at ht
        injection ht with ht
        rw [← ht]
        rfl
      · rw [if_neg hw1] at ht
        injection ht with ht
        rw [← ht, hc, hvar, zero_div, hsqrt, hmean]
        show odiv (osub (some c) (some c)) (some 0) = none
        rw [osub]
        show odiv (some (c - c)) (some 0) = none
        rw [odiv]
        rw [if_pos rfl]
  · intro t ht hfull hw2
    obtain ⟨hmean, hvar⟩ :=
      windowAt_var_zero w t spread c ht hw hfull hconst
    rw [List.getD_eq_getElem?_getD, rollingStd_getElem sqrtFn w spread t ht,
      if_neg (by omega), if_neg (by omega), hvar, zero_div, hsqrt]
    rfl

/-- Witness for C9 on the constant spread [5, 5, 5] with lookback 2. -/
theorem calculate_zscore_constant_spread_witness :
    1 ≤ 2 ∧ (∀ x ∈ [(5 : ℚ), 5, 5], x = 5) ∧ (fun q : ℚ => q) 0 = 0 ∧
    (∀ oz ∈ calculate_zscore (fun q => q) 2 [(5 : ℚ), 5, 5], oz = none) :=
  ⟨by norm_num, by decide, rfl,
    (calculate_zscore_constant_spread (fun q => q) 2 [(5 : ℚ), 5, 5] 5
      (by norm_num) (by decide) rfl).1⟩

/-! ## Performance metrics (backtest.py) -/

/-- Cumulative product carrying the running product accumulator. -/
def cumprodGo (acc : ℚ) : List ℚ → List ℚ
  | [] => []
  | x :: xs => (acc * x) :: cumprodGo (acc * x) xs

/-- `pandas.Series.cumprod()`. -/
def cumprod (l : List ℚ) : List ℚ := cumprodGo 1 l

/-- Helper for the expanding maximum, carrying the running peak. -/
def runMaxGo (m : ℚ) : List ℚ → List ℚ
  | [] => []
  | x :: xs => (max m x) :: runMaxGo (max m x) xs

/-- `cumulative.expanding().max()` running maximum. -/
def runningMax : List ℚ → List ℚ
  | [] => []
  | x :: xs => x :: runMaxGo x xs

/-- `pandas.Series.std()` over the whole series: sample standard
deviation (denominator n − 1), NaN (`none`) for fewer than two
observations; `sqrtFn` abstracts the square root. -/
def seriesStd (sqrtFn : ℚ → ℚ) (l : List ℚ) : Option ℚ :=
  if l.length < 2 then none
  else some (sqrtFn ((l.map fun a => (a - mean l) ^ 2).sum /
    ((l.length : ℚ) - 1)))

/-- `positions.diff().fillna(0)`: 0 at the first timestep (the NaN of
`diff` filled with 0), then successive differences. -/
def posChanges (pos : List ℚ) : List ℚ :=
  match pos with
  | [] => []
  | p :: rest => 0 :: List.zipWith (fun prev cur => cur - prev) (p :: rest) rest

/-- `returns[position_changes != 0]`: boolean-mask selection of the
return entries at timesteps with a nonzero position change. -/
def maskTrades (returns changes : List ℚ) : List ℚ :=
  (List.zipWith (fun r c => (r, c)) returns changes).filterMap
    fun rc => if rc.2 ≠ 0 then some rc.1 else none

/-- `returns.std() * np.sqrt(252)`: annualised volatility, NaN when
the standard deviation is NaN. -/
def annualizedVol (sqrtFn : ℚ → ℚ) (returns : List ℚ) : Option ℚ :=
  (seriesStd sqrtFn returns).map fun s => s * sqrtFn 252

/-- `annualized_return / annualized_volatility if annualized_volatility
> 0 else 0` — a NaN volatility compares false, giving 0. -/
def sharpeOf (annualized_return : ℚ) (vol : Option ℚ) : ℚ :=
  match vol with
  | some v => if 0 < v then annualized_return / v else 0
  | none => 0

/-- The trade-statistics block of `Backtester.calculate_metrics`
(backtest.py lines 61–79): all four values start as `None`; with a
position series and at least one trade (a timestep with nonzero
position change) they become the trade count, the winning fraction,
and the mean winning / losing returns, each of the latter two
defaulting to the number 0 when its subset is empty. Returned as
(n_trades, win_rate, avg_win, avg_loss). -/
def tradeStats (returns : List ℚ) (positions : Option (List ℚ)) :
    Option ℕ × Option ℚ × Option ℚ × Option ℚ :=
  match positions with
  | none => (none, none, none, none)
  | some pos =>
      let trades := maskTrades returns (posChanges pos)
      if 0 < trades.length then
        (some trades.length,
         some (((trades.filter fun r => decide (0 < r)).length : ℚ) /
           (trades.length : ℚ)),
         some (if 0 < (trades.filter fun r => decide (0 < r)).length
           then mean (trades.filter fun r => decide (0 < r)) else 0),
         some (if 0 < (trades.filter fun r => decide (r < 0)).length
           then mean (trades.filter fun r => decide (r < 0)) else 0))
      else (none, none, none, none)

/-- The metrics dictionary of `Backtester.calculate_metrics`. `none`
models both Python `None` (trade statistics) and a float NaN
(volatility of fewer than two observations, drawdown minimum of an
empty series, Calmar ratio of an undefined drawdown). -/
structure Metrics where
  total_return : ℚ
  annualized_return : ℚ
  annualized_volatility : Option ℚ
  sharpe_ratio : ℚ
  max_drawdown : Option ℚ
  calmar_ratio : Option ℚ
  n_trades : Option ℕ
  win_rate : Option ℚ
  avg_win : Option ℚ
  avg_loss : Option ℚ

/-- `Backtester.calculate_metrics` (backtest.py lines 25–97). `powFn`
abstracts the real power `(1 + totalReturn) ** (1 / nYears)`, `sqrtFn`
the square root (used on the variance and on the constant 252); both
enter every claim only through properties the real functions satisfy.
The source indexes `cumulative_returns.iloc[-1]` assuming a non-empty
series; the embedding totalises that with a last-or-1 default, which no
claim exercises on the empty series. -/
def calculate_metrics (sqrtFn : ℚ → ℚ) (powFn : ℚ → ℚ → ℚ)
    (returns : List ℚ) (positions : Option (List ℚ)) : Metrics :=
  let cumulative_returns := cumprod (returns.map fun r => 1 + r)
  let total_return := cumulative_returns.getLastD 1 - 1
  let n_years : ℚ := (returns.length : ℚ) / 252
  let annualized_return :=
    if 0 < n_years then powFn (1 + total_return) (1 / n_years) - 1 else 0
  let annualized_volatility := annualizedVol sqrtFn returns
  let sharpe_ratio := sharpeOf annualized_return annualized_volatility
  let drawdown := List.zipWith (fun cu m => (cu - m) / m)
    cumulative_returns (runningMax cumulative_returns)
  let max_drawdown := drawdown.min?
  let calmar_ratio :=
    match max_drawdown with
    | some m => some (if m ≠ 0 then annualized_return / |m| else 0)
    | none => none
  { total_return := total_return
    annualized_return := annualized_return
    annualized_volatility := annualized_volatility
    sharpe_ratio := sharpe_ratio
    max_drawdown := max_drawdown
    calmar_ratio := calmar_ratio
    n_trades := (tradeStats returns positions).1
    win_rate := (tradeStats returns positions).2.1
    avg_win := (tradeStats returns positions).2.2.1
    avg_loss := (tradeStats returns positions).2.2.2 }

/-! ## Constructors (strategy.py, cointegration.py) -/

/-- Configuration stored by `PairsTrading`. -/
structure PairsTrading where
  entry_threshold : ℚ
  exit_threshold : ℚ
  stop_loss : ℚ
  lookback_period : ℤ

/-- `PairsTrading.__init__` (strategy.py lines 22–41): stores the four
configuration values unchanged; the body performs no validation. -/
def PairsTrading.init (entry_threshold exit_threshold stop_loss : ℚ)
    (lookback_period : ℤ) : PairsTrading :=
  { entry_threshold := entry_threshold
    exit_threshold := exit_threshold
    stop_loss := stop_loss
    lookback_period := lookback_period }

/-- Configuration stored by `CointegrationAnalyzer` (the empty result
caches set up alongside it are not modelled). -/
structure CointegrationAnalyzer where
  significance_level : ℚ

/-- `CointegrationAnalyzer.__init__` (cointegration.py lines 17–26):
stores the significance level unchanged; no validation. -/
def CointegrationAnalyzer.init (significance_level : ℚ) :
    CointegrationAnalyzer :=
  { significance_level := significance_level }

/-- C6: the constructors perform no domain validation. With negative
thresholds, a negative significance level and a non-positive lookback,
both constructions succeed and store the out-of-domain values
unchanged, instead of rejecting them at construction time. -/
theorem init_accepts_invalid_config :
    PairsTrading.init (-1) (-1) (-1) 0 =
      { entry_threshold := -1, exit_threshold := -1, stop_loss := -1,
        lookback_period := 0 } ∧
    CointegrationAnalyzer.init (-1) = { significance_level := -1 } :=
  ⟨rfl, rfl⟩

/-- Specification-side definition for the trade statistics: the return
entries at trade timesteps, walking the (return, position) pairs while
carrying the previous position; a timestep is a trade iff its position
differs from the previous one. -/
def tradeReturnsFrom (prev : ℚ) : List (ℚ × ℚ) → List ℚ
  | [] => []
  | rp :: rest =>
      if rp.2 ≠ prev then rp.1 :: tradeReturnsFrom rp.2 rest
      else tradeReturnsFrom rp.2 rest

/-- Specification-side definition: the returns at all trade timesteps;
the first timestep is never a trade (its position difference is the
filled-in 0). -/
def tradeReturns (returns pos : List ℚ) : List ℚ :=
  match List.zipWith (fun r p => (r, p)) returns pos with
  | [] => []
  | rp :: rest => tradeReturnsFrom rp.2 rest

lemma maskTrades_aux :
    ∀ (ps rs : List ℚ) (prev : ℚ),
      maskTrades rs (List.zipWith (fun a b => b - a) (prev :: ps) ps) =
        tradeReturnsFrom prev (List.zipWith (fun r p => (r, p)) rs ps) := by
  intro ps
  induction ps with
  | nil =>
      intro rs prev
      simp [maskTrades, tradeReturnsFrom]
  | cons q ps ih =>
      intro rs prev
      match rs with
      | [] => simp [maskTrades, tradeReturnsFrom]
      | r :: rs =>
          simp only [List.zipWith_cons_cons, maskTrades, List.filterMap_cons,
            tradeReturnsFrom]
          by_cases hq : q - prev ≠ 0
          · rw [if_pos hq, if_pos (sub_ne_zero.mp hq)]
            exact congrArg (List.cons r) (ih rs q)
          · rw [if_neg hq, if_neg (fun hne => hq (sub_ne_zero.mpr hne))]
            exact ih rs q

lemma maskTrades_eq_tradeReturns (returns pos : List ℚ) :
    maskTrades returns (posChanges pos) = tradeReturns returns pos := by
  match pos with
  | [] =>
      simp [maskTrades, posChanges, tradeReturns]
  | p :: ps =>
      match returns with
      | [] => simp [maskTrades, posChanges, tradeReturns]
      | r :: rs =>
          show maskTrades (r :: rs)
            (0 :: List.zipWith (fun a b => b - a) (p :: ps) ps) = _
          simp only [maskTrades, List.zipWith_cons_cons, List.filterMap_cons,
            tradeReturns]
          rw [if_neg (by norm_num)]
          exact maskTrades_aux ps rs p

/-- C4 (amended): with a position series, `n_trades` counts all
timesteps at which the position changed from the previous timestep —
regardless of the return value — and is reported as absent when there
is no such timestep; `win_rate` is the fraction of those timesteps
whose return is strictly positive. -/
theorem calculate_metrics_trades_spec (sqrtFn : ℚ → ℚ)
    (powFn : ℚ → ℚ → ℚ) (returns pos : List ℚ) :
    (calculate_metrics sqrtFn powFn returns (some pos)).n_trades =
      (if (tradeReturns returns pos).length = 0 then none
        else some (tradeReturns returns pos).length)
    ∧ (calculate_metrics sqrtFn powFn returns (some pos)).win_rate =
      (if (tradeReturns returns pos).length = 0 then none
        else some ((((tradeReturns returns pos).filter
            fun r => decide (0 < r)).length : ℚ) /
          ((tradeReturns returns pos).length : ℚ))) := by
  have hnt : (calculate_metrics sqrtFn powFn returns (some pos)).n_trades =
      (tradeStats returns (some pos)).1 := rfl
  have hwr : (calculate_metrics sqrtFn powFn returns (some pos)).win_rate =
      (tradeStats returns (some pos)).2.1 := rfl
  rw [hnt, hwr]
  simp only [tradeStats]
  rw [maskTrades_eq_tradeReturns]
  rcases Nat.eq_zero_or_pos (tradeReturns returns pos).length with h0 | hp
  · rw [if_neg (show ¬ 0 < (tradeReturns returns pos).length by omega),
      if_pos h0, if_pos h0]
    exact ⟨rfl, rfl⟩
  · rw [if_pos hp,
      if_neg (show ¬ (tradeReturns returns pos).length = 0 by omega),
      if_neg (show ¬ (tradeReturns returns pos).length = 0 by omega)]
    exact ⟨rfl, rfl⟩

/-- Claim-side count for C4 as stated: timesteps where the position
changed from the previous timestep AND the return there is nonzero. -/
def changedNonzeroCount (returns pos : List ℚ) : ℕ :=
  ((tradeReturns returns pos).filter fun r => decide (r ≠ 0)).length

/-- C4 counterexample: with returns [0, 0] and positions [0, 1] the
position changes at the second timestep but its return is zero, so the
claim's count is 0 — yet the code reports `n_trades = 1`, because the
mask `position_changes != 0` does not look at the return at all. -/
theorem calculate_metrics_trades_counterexample :
    (calculate_metrics (fun q => q) (fun a _ => a) [0, 0]
        (some [0, 1])).n_trades = some 1 ∧
    changedNonzeroCount [0, 0] [0, 1] = 0 := by
  have hmask : maskTrades [0, 0] (posChanges [0, 1]) = [0] := by
    norm_num [maskTrades, posChanges, List.filterMap_cons]
  constructor
  · show (tradeStats [0, 0] (some [0, 1])).1 = some 1
    simp only [tradeStats]
    rw [hmask]
    norm_num
  · show ((tradeReturns [0, 0] [0, 1]).filter
      fun r => decide (r ≠ 0)).length = 0
    norm_num [tradeReturns, tradeReturnsFrom]

/-- C5 (code-bug evidence): at returns [0, 1/10] and positions [0, 1]
there is exactly one trade and its return is positive — the losing
subset is empty — yet `avg_loss` is reported as the number 0
(`losing_trades.mean() if len(losing_trades) > 0 else 0`) instead of
being left undefined/absent. -/
theorem calculate_metrics_avg_loss_zero :
    (calculate_metrics (fun q => q) (fun a _ => a) [0, 1/10]
        (some [0, 1])).avg_loss = some 0 ∧
    ((tradeReturns [0, 1/10] [0, 1]).filter fun r => decide (r < 0)) = [] := by
  have hmask : maskTrades [0, 1/10] (posChanges [0, 1]) = [1/10] := by
    norm_num [maskTrades, posChanges, List.filterMap_cons]
  constructor
  · show (tradeStats [0, 1/10] (some [0, 1])).2.2.2 = some 0
    simp only [tradeStats]
    rw [hmask]
    norm_num
  · norm_num [tradeReturns, tradeReturnsFrom]

lemma cumprodGo_replicate_one (m : ℕ) :
    ∀ acc : ℚ, cumprodGo acc (List.replicate m 1) = List.replicate m acc := by
  induction m with
  | zero => intro acc; rfl
  | succ k ih =>
      intro acc
      rw [List.replicate_succ]
      simp only [cumprodGo, mul_one]
      rw [ih acc, List.replicate_succ]

lemma getLastD_replicate_one (m : ℕ) :
    (List.replicate m (1 : ℚ)).getLastD 1 = 1 := by
  induction m with
  | zero => rfl
  | succ k ih => rw [List.replicate_succ, List.getLastD_cons, ih]

lemma runMaxGo_replicate_one (m : ℕ) :
    runMaxGo (1 : ℚ) (List.replicate m 1) = List.replicate m 1 := by
  induction m with
  | zero => rfl
  | succ k ih =>
      rw [List.replicate_succ]
      simp only [runMaxGo, max_self]
      rw [ih]

lemma runningMax_replicate_one (n : ℕ) :
    runningMax (List.replicate n (1 : ℚ)) = List.replicate n 1 := by
  cases n with
  | zero => rfl
  | succ k =>
      rw [List.replicate_succ]
      simp only [runningMax]
      rw [runMaxGo_replicate_one]

lemma foldl_min_replicate_zero (k : ℕ) :
    List.foldl min (0 : ℚ) (List.replicate k 0) = 0 := by
  induction k with
  | zero => rfl
  | succ j ih => rw [List.replicate_succ, List.foldl_cons, min_self]; exact ih

lemma min?_replicate_zero (n : ℕ) (hn : 0 < n) :
    (List.replicate n (0 : ℚ)).min? = some 0 := by
  obtain ⟨k, rfl⟩ : ∃ k, n = k + 1 := ⟨n - 1, by omega⟩
  rw [List.replicate_succ, List.min?_cons', foldl_min_replicate_zero]

lemma mean_replicate_zero (n : ℕ) : mean (List.replicate n (0 : ℚ)) = 0 := by
  rw [mean, List.sum_replicate]
  simp

lemma seriesStd_replicate_zero (sqrtFn : ℚ → ℚ) (hsqrt : sqrtFn 0 = 0)
    (n : ℕ) :
    seriesStd sqrtFn (List.replicate n 0) =
      if n < 2 then none else some 0 := by
  rw [seriesStd, List.length_replicate]
  by_cases h2 : n < 2
  · rw [if_pos h2, if_pos h2]
  · rw [if_neg h2, if_neg h2]
    have hmap : (List.replicate n (0 : ℚ)).map
        (fun a => (a - mean (List.replicate n (0 : ℚ))) ^ 2) =
        List.replicate n 0 := by
      rw [List.map_replicate, mean_replicate_zero]
      norm_num
    rw [hmap, List.sum_replicate]
    simp [hsqrt]

/-- C8: on every non-empty all-zero return series, the total return is
0, the Sharpe ratio is 0 via the volatility-not-positive special case
(the volatility is exactly 0 when at least two observations exist, and
undefined for one), and the maximum drawdown is 0. -/
theorem calculate_metrics_all_zero (sqrtFn : ℚ → ℚ) (powFn : ℚ → ℚ → ℚ)
    (returns : List ℚ) (positions : Option (List ℚ))
    (hne : returns ≠ []) (hzero : ∀ r ∈ returns, r = 0)
    (hsqrt : sqrtFn 0 = 0) :
    (calculate_metrics sqrtFn powFn returns positions).total_return = 0 ∧
    (calculate_metrics sqrtFn powFn returns positions).sharpe_ratio = 0 ∧
    (calculate_metrics sqrtFn powFn returns positions).max_drawdown =
      some 0 := by
  have hrep := List.eq_replicate_of_mem hzero
  have hnpos : 0 < returns.length := List.length_pos.mpr hne
  have hmap1 : returns.map (fun r => 1 + r) =
      List.replicate returns.length 1 := by
    conv_lhs => rw [hrep]
    rw [List.map_replicate]
    norm_num
  have hcum : cumprod (returns.map fun r => 1 + r) =
      List.replicate returns.length 1 := by
    rw [hmap1, cumprod, cumprodGo_replicate_one]
  have hstd : seriesStd sqrtFn returns =
      if returns.length < 2 then none else some 0 := by
    conv_lhs => rw [hrep]
    rw [seriesStd_replicate_zero sqrtFn hsqrt]
  refine ⟨?_, ?_, ?_⟩
  · show (cumprod (returns.map fun r => 1 + r)).getLastD 1 - 1 = 0
    rw [hcum, getLastD_replicate_one]
    ring
  · have hvol : annualizedVol sqrtFn returns =
        if returns.length < 2 then none else some 0 := by
      rw [annualizedVol, hstd]
      by_cases h2 : returns.length < 2
      · rw [if_pos h2]
        rfl
      · rw [if_neg h2]
        simp
    obtain ⟨ar, har⟩ : ∃ ar,
        (calculate_metrics sqrtFn powFn returns positions).sharpe_ratio =
          sharpeOf ar (annualizedVol sqrtFn returns) := ⟨_, rfl⟩
    rw [har, hvol]
    by_cases h2 : returns.length < 2
    · rw [if_pos h2]
      rfl
    · rw [if_neg h2]
      simp [sharpeOf]
  · show (List.zipWith (fun cu m => (cu - m) / m)
        (cumprod (returns.map fun r => 1 + r))
        (runningMax (cumprod (returns.map fun r => 1 + r)))).min? = some 0
    rw [hcum, runningMax_replicate_one, List.zipWith_replicate']
    have : ((1 : ℚ) - 1) / 1 = 0 := by norm_num
    rw [this]
    exact min?_replicate_zero returns.length hnpos

/-- Witness for C8 on the all-zero return series [0, 0]. -/
theorem calculate_metrics_all_zero_witness :
    ([(0 : ℚ), 0] ≠ []) ∧ (∀ r ∈ [(0 : ℚ), 0], r = 0) ∧
    ((fun q : ℚ => q) 0 = 0) ∧
    (calculate_metrics (fun q => q) (fun a _ => a) [0, 0] none).total_return
      = 0 ∧
    (calculate_metrics (fun q => q) (fun a _ => a) [0, 0] none).sharpe_ratio
      = 0 ∧
    (calculate_metrics (fun q => q) (fun a _ => a) [0, 0]
        none).max_drawdown = some 0 := by
  refine ⟨by simp, by decide, rfl, ?_⟩
  have h := calculate_metrics_all_zero (fun q => q) (fun a _ => a)
    [0, 0] none (by simp) (by decide) rfl
  exact ⟨h.1, h.2.1, h.2.2⟩

/-! ## Return synthesis (strategy.py) -/

/-- `prices.pct_change()`: NaN at the first observation, then
`p[t] / p[t−1] − 1`. -/
def pctChange (p : List ℚ) : List (Option ℚ) :=
  match p with
  | [] => []
  | _ :: _ =>
      none :: List.zipWith (fun prev cur => some (cur / prev - 1)) p p.tail

/-- `positions.shift(1)`: NaN at the first observation, then the
previous entry. -/
def shift1 (l : List ℚ) : List (Option ℚ) :=
  match l with
  | [] => []
  | _ :: _ => none :: (l.dropLast.map some)

/-- `PairsTrading.calculate_returns` (strategy.py lines 160–188):
`positions.shift(1) * returns` summed over both legs, with
`fillna(0)` replacing every undefined value by 0. -/
def calculate_returns (pA pB posA posB : List ℚ) : List ℚ :=
  (List.zipWith oadd
    (List.zipWith omul (shift1 posA) (pctChange pA))
    (List.zipWith omul (shift1 posB) (pctChange pB))).map
    fun o => o.getD 0

/-- The result bundle of `PairsTrading.run_strategy`. -/
structure StrategyResult where
  signal : List ℤ
  posA : List ℚ
  posB : List ℚ
  spread : List ℚ
  zscore : List (Option ℚ)
  returns : List ℚ
  cumulative_returns : List ℚ

/-- `PairsTrading.run_strategy` (strategy.py lines 190–225), composing
`calculate_positions` (lines 124–158) — spread, z-score, signals, the
raw signal as the stock1 leg and the hedge-scaled opposite as the
stock2 leg — with `calculate_returns` and the cumulative product
`(1 + returns).cumprod() − 1`. -/
def run_strategy (sqrtFn : ℚ → ℚ) (entry exitT stopLoss : ℚ)
    (lookback : ℕ) (pA pB : List ℚ) (hedge_ratio : ℚ) : StrategyResult :=
  let spread := List.zipWith (fun a b => a - hedge_ratio * b) pA pB
  let zscore := calculate_zscore sqrtFn lookback spread
  let signal := generate_signals entry exitT stopLoss zscore
  let posA := signal.map fun s => ((s : ℤ) : ℚ)
  let posB := signal.map fun s => -((s : ℤ) : ℚ) * hedge_ratio
  let returns := calculate_returns pA pB posA posB
  { signal := signal
    posA := posA
    posB := posB
    spread := spread
    zscore := zscore
    returns := returns
    cumulative_returns := (cumprod (returns.map fun r => 1 + r)).map
      fun cu => cu - 1 }

lemma cumprodGo_length (l : List ℚ) :
    ∀ acc : ℚ, (cumprodGo acc l).length = l.length := by
  induction l with
  | nil => intro acc; rfl
  | cons x xs ih =>
      intro acc
      simp only [cumprodGo, List.length_cons, ih]

lemma cumprodGo_getD (l : List ℚ) :
    ∀ (acc : ℚ) (t : ℕ), t < l.length →
      (cumprodGo acc l).getD t 0 = acc * (l.take (t + 1)).prod := by
  induction l with
  | nil => intro acc t ht; simp at ht
  | cons x xs ih =>
      intro acc t ht
      cases t with
      | zero =>
          simp only [cumprodGo, List.getD_cons_zero, List.take_succ_cons,
            List.take_zero, List.prod_cons, List.prod_nil]
          ring
      | succ k =>
          have hk : k < xs.length := by
            simpa using ht
          simp only [cumprodGo, List.getD_cons_succ]
          rw [ih (acc * x) k hk, List.take_succ_cons, List.prod_cons]
          ring

lemma cumprod_getD (l : List ℚ) (t : ℕ) (ht : t < l.length) :
    (cumprod l).getD t 0 = (l.take (t + 1)).prod := by
  rw [cumprod, cumprodGo_getD l 1 t ht, one_mul]

lemma getD_map_sub_one (l : List ℚ) (t : ℕ) (ht : t < l.length) :
    (l.map fun cu => cu - 1).getD t 0 = l.getD t 0 - 1 := by
  rw [List.getD_eq_getElem?_getD, List.getElem?_map,
    List.getElem?_eq_getElem ht, List.getD_eq_getElem?_getD,
    List.getElem?_eq_getElem ht]
  rfl

lemma shift1_getElem (l : List ℚ) (t : ℕ) (h1 : 1 ≤ t)
    (h2 : t < l.length) :
    (shift1 l)[t]? = some (some (l.getD (t - 1) 0)) := by
  obtain ⟨k, rfl⟩ : ∃ k, t = k + 1 := ⟨t - 1, by omega⟩
  rcases l with _ | ⟨x, xs⟩
  · simp at h2
  · replace h2 : k < xs.length := by
      simp only [List.length_cons] at h2
      omega
    show (none :: ((x :: xs).dropLast.map some))[k + 1]? = _
    rw [List.getElem?_cons_succ]
    have hk : k < (x :: xs).dropLast.length := by
      simp only [List.length_dropLast, List.length_cons]
      omega
    rw [List.getElem?_map, List.getElem?_eq_getElem hk,
      List.getElem_dropLast]
    have hsub : k + 1 - 1 = k := rfl
    rw [hsub]
    have hk2 : k < (x :: xs).length := by
      simp only [List.length_cons]
      omega
    rw [Option.map_some', List.getD_eq_getElem?_getD,
      List.getElem?_eq_getElem hk2]
    rfl

lemma pctChange_getElem (l : List ℚ) (t : ℕ) (h1 : 1 ≤ t)
    (h2 : t < l.length) :
    (pctChange l)[t]? = some (some (l.getD t 0 / l.getD (t - 1) 0 - 1)) := by
  obtain ⟨k, rfl⟩ : ∃ k, t = k + 1 := ⟨t - 1, by omega⟩
  rcases l with _ | ⟨x, xs⟩
  · simp at h2
  · replace h2 : k < xs.length := by
      simp only [List.length_cons] at h2
      omega
    have hk1 : k < (x :: xs).length := by
      simp only [List.length_cons]
      omega
    show (none :: List.zipWith (fun prev cur => some (cur / prev - 1))
      (x :: xs) xs)[k + 1]? = _
    rw [List.getElem?_cons_succ, List.getElem?_zipWith]
    rw [List.getElem?_eq_getElem hk1, List.getElem?_eq_getElem h2]
    have hsub : k + 1 - 1 = k := rfl
    rw [hsub]
    have e1 : xs.getD k 0 = xs[k] := by
      rw [List.getD_eq_getElem?_getD, List.getElem?_eq_getElem h2]
      rfl
    have e2 : (x :: xs).getD k 0 = (x :: xs)[k] := by
      rw [List.getD_eq_getElem?_getD, List.getElem?_eq_getElem hk1]
      rfl
    rw [List.getD_cons_succ, e1, e2]

lemma calculate_returns_getElem (pA pB posA posB : List ℚ) (t : ℕ)
    (h1 : 1 ≤ t) (hA : t < pA.length) (hB : pB.length = pA.length)
    (hpA : posA.length = pA.length) (hpB : posB.length = pA.length) :
    (calculate_returns pA pB posA posB).getD t 0 =
      posA.getD (t - 1) 0 * (pA.getD t 0 / pA.getD (t - 1) 0 - 1)
      + posB.getD (t - 1) 0 * (pB.getD t 0 / pB.getD (t - 1) 0 - 1) := by
  have htpA : t < posA.length := by omega
  have htpB : t < posB.length := by omega
  have htB : t < pB.length := by omega
  rw [calculate_returns, List.getD_eq_getElem?_getD, List.getElem?_map,
    List.getElem?_zipWith, List.getElem?_zipWith, List.getElem?_zipWith,
    shift1_getElem posA t h1 htpA, pctChange_getElem pA t h1 hA,
    shift1_getElem posB t h1 htpB, pctChange_getElem pB t h1 htB]
  rfl

/-- C3: the strategy return at time t equals the one-step-lagged
position times the per-instrument percentage return, summed over both
legs; the first observation (and with it every undefined product) is
exactly 0; and the cumulative return series of `run_strategy` equals
the running product ∏(1+r) − 1 over its strategy returns. -/
theorem calculate_returns_spec
    (sqrtFn : ℚ → ℚ) (entry exitT stopLoss : ℚ) (lookback : ℕ)
    (pA pB posA posB : List ℚ) (hedge_ratio : ℚ)
    (hB : pB.length = pA.length) (hpA : posA.length = pA.length)
    (hpB : posB.length = pA.length) :
    (0 < pA.length → (calculate_returns pA pB posA posB).getD 0 0 = 0)
    ∧ (∀ t, 1 ≤ t → t < pA.length →
        (calculate_returns pA pB posA posB).getD t 0 =
          posA.getD (t - 1) 0 * (pA.getD t 0 / pA.getD (t - 1) 0 - 1)
          + posB.getD (t - 1) 0 * (pB.getD t 0 / pB.getD (t - 1) 0 - 1))
    ∧ (∀ t, t < (run_strategy sqrtFn entry exitT stopLoss lookback
          pA pB hedge_ratio).returns.length →
        (run_strategy sqrtFn entry exitT stopLoss lookback
          pA pB hedge_ratio).cumulative_returns.getD t 0 =
          (((run_strategy sqrtFn entry exitT stopLoss lookback
            pA pB hedge_ratio).returns.take (t + 1)).map
              fun r => 1 + r).prod - 1) := by
  refine ⟨?_, ?_, ?_⟩
  · intro hpos
    rcases pA with _ | ⟨a, as⟩
    · simp at hpos
    rcases pB with _ | ⟨b, bs⟩
    · simp at hB
    rcases posA with _ | ⟨pa, pas⟩
    · simp at hpA
    rcases posB with _ | ⟨pb, pbs⟩
    · simp at hpB
    rfl
  · intro t ht1 ht2
    exact calculate_returns_getElem pA pB posA posB t ht1 ht2 hB hpA hpB
  · intro t ht
    have hproj : (run_strategy sqrtFn entry exitT stopLoss lookback
        pA pB hedge_ratio).cumulative_returns =
        (cumprod ((run_strategy sqrtFn entry exitT stopLoss lookback
          pA pB hedge_ratio).returns.map fun r => 1 + r)).map
          fun cu => cu - 1 := rfl
    rw [hproj]
    have hlen2 : t < (cumprod ((run_strategy sqrtFn entry exitT stopLoss
        lookback pA pB hedge_ratio).returns.map fun r => 1 + r)).length := by
      rw [cumprod, cumprodGo_length, List.length_map]
      exact ht
    rw [getD_map_sub_one _ t hlen2,
      cumprod_getD _ t (by rw [List.length_map]; exact ht),
      ← List.map_take]

/-- Witness for C3 at prices A = [1, 2], B = [1, 1], positions
A-leg = [1, 1], B-leg = [0, 0], evaluated at timestep 1. -/
theorem calculate_returns_spec_witness :
    ([(1 : ℚ), 1].length = [(1 : ℚ), 2].length) ∧
    ([(1 : ℚ), 1].length = [(1 : ℚ), 2].length) ∧
    ([(0 : ℚ), 0].length = [(1 : ℚ), 2].length) ∧
    (calculate_returns [(1 : ℚ), 2] [(1 : ℚ), 1] [(1 : ℚ), 1]
        [(0 : ℚ), 0]).getD 1 0 =
      ([(1 : ℚ), 1]).getD 0 0 *
        (([(1 : ℚ), 2]).getD 1 0 / ([(1 : ℚ), 2]).getD 0 0 - 1)
      + ([(0 : ℚ), 0]).getD 0 0 *
        (([(1 : ℚ), 1]).getD 1 0 / ([(1 : ℚ), 1]).getD 0 0 - 1) :=
  ⟨rfl, rfl, rfl,
    (calculate_returns_spec (fun q => q) 2 (1/2) 4 2 [(1 : ℚ), 2]
      [(1 : ℚ), 1] [(1 : ℚ), 1] [(0 : ℚ), 0] 1 rfl rfl rfl).2.1 1
      (by norm_num) (by norm_num)⟩

end Nifty50
